import Mathlib

/-!
Verification development for the variant-to-peptide annotation pipeline
(`bin/epaa.py`).  The Python functions that the claims concern are embedded
shallowly: pure functions become Lean functions, Python dictionaries become
association lists, a statement that can raise an exception returns `Option`
(`none` = unhandled exception), and `numpy.nan` cells are `Option.none`.
-/

namespace Epaa

/-- VariationType enum of the epytope library, in the integer order used by
`create_variant_type_column_value` (0 = SNP, 1 = DEL, 2 = INS, 3 = FSDEL,
4 = FSINS, 5 = UNKNOWN). -/
inductive VariationType where
  | SNP
  | DEL
  | INS
  | FSDEL
  | FSINS
  | UNKNOWN
deriving DecidableEq, Repr

/-- Integer value of a `VariationType`, as used by the `v.type in [3, 4, 5]`
style tests in `generate_wt_seqs`. -/
def VariationType.toIdx : VariationType → Nat
  | .SNP => 0
  | .DEL => 1
  | .INS => 2
  | .FSDEL => 3
  | .FSINS => 4
  | .UNKNOWN => 5

/-- Embedding of `get_epytope_annotation(vt, p, r, alt)` (epaa.py lines
62-84).  The Python function assigns `position`, `reference`, `alternative`
only in the SNP / DEL / INS branches; for `UNKNOWN` no branch runs and the
final `return position, reference, alternative` raises `UnboundLocalError`,
modelled as `none`.  Note `r[len(alt):]` is `String.drop` and Python `p +
len(alt)` is plain addition on the 1-based genomic position. -/
def get_epytope_ann (vt : VariationType) (p : Nat) (r alt : String) :
    Option (Nat × String × String) :=
  match vt with
  | .SNP => some (p, r, alt)
  | .DEL | .FSDEL =>
      if alt ≠ "-" then
        some (p + alt.length, r.drop alt.length, "-")
      else
        some (p, r, alt)
  | .INS | .FSINS =>
      if r ≠ "-" then
        some (p, "-", if alt ≠ "-" then alt.drop r.length else alt)
      else
        some (p, r, alt)
  | .UNKNOWN => none

/-- The fields of a `vcf.Reader` record consulted by
`determine_variant_type`: the PyVCF predicates `is_snp`, `is_indel`,
`is_deletion` and the reference allele `REF`. -/
structure VcfTypeRecord where
  is_snp : Bool
  is_indel : Bool
  is_deletion : Bool
  REF : String
deriving DecidableEq, Repr

/-- Embedding of `determine_variant_type(record, alternative)` (epaa.py lines
87-102).  `abs(len(alternative) - len(record.REF)) % 3 == 0` distinguishes
in-frame from frameshift indels. -/
def determine_variant_type (record : VcfTypeRecord) (alternative : String) :
    VariationType :=
  if record.is_snp then
    VariationType.SNP
  else if record.is_indel then
    if ((alternative.length : Int) - (record.REF.length : Int)).natAbs % 3 == 0 then
      if record.is_deletion then VariationType.DEL else VariationType.INS
    else
      if record.is_deletion then VariationType.FSDEL else VariationType.FSINS
  else
    VariationType.UNKNOWN

/-- The fields of a record consulted by `determine_zygosity`: the `HOM` and
`SGT` INFO entries (absent = `none`) and, per sample, the `GT` format value
(absent = `none`).  PyVCF presents `HOM` as a number compared with `== 1`. -/
structure VcfZygRecord where
  infoHOM : Option Int
  infoSGT : Option String
  sampleGT : List (Option String)
deriving DecidableEq, Repr

/-- Index of the first occurrence of `sep` in `s` (leftmost match), as used
by Python's `str.split` scanning. -/
def findSubstringIdx (sep s : List Char) : Option Nat :=
  (List.range (s.length + 1)).find? (fun i => sep.isPrefixOf (s.drop i))

/-- Fuel-driven worker for `pySplit` (the fuel makes the recursion
structural, so terms reduce inside the kernel). -/
def pySplitAux (sep : List Char) : Nat → List Char → List (List Char)
  | 0, s => [s]
  | fuel + 1, s =>
    match findSubstringIdx sep s with
    | none => [s]
    | some i => s.take i :: pySplitAux sep fuel (s.drop (i + sep.length))

/-- Python `s.split(sep)` for a non-empty separator: split at every
non-overlapping leftmost occurrence of `sep`. -/
def pySplit (sep s : List Char) : List (List Char) :=
  pySplitAux sep (s.length + 1) s

/-- Embedding of `determine_zygosity(record)` (epaa.py lines 105-123).
`record.INFO["SGT"].split("->")[1]` raises `IndexError` when `SGT` contains
no `"->"`, and `zygosity[0] == zygosity[1]` raises when the code is shorter
than two characters; both are modelled as `none`.  The sample loop
repeatedly overwrites `isHomozygous`, so the last sample that carries a `GT`
value decides. -/
def determine_zygosity (record : VcfZygRecord) : Option Bool :=
  match record.infoHOM with
  | some h => some (h == 1)
  | none =>
    match record.infoSGT with
    | some sgt =>
      match (pySplit "->".toList sgt.toList).get? 1 with
      | none => none
      | some zygosity =>
        if zygosity = "het".toList then some false
        else if zygosity = "hom".toList then some true
        else if zygosity = "ref".toList then some true
        else
          match zygosity.get? 0, zygosity.get? 1 with
          | some c0, some c1 => some (c0 == c1)
          | _, _ => none
    | none =>
      some (record.sampleGT.foldl
        (fun isHomozygous gt =>
          match gt with
          | some g => g == "1/1"
          | none => isHomozygous)
        false)

/-- Last `GT` value carried by any sample, in record order (the sample whose
value survives the overwriting loop of `determine_zygosity`). -/
def lastGT : List (Option String) → Option String
  | [] => none
  | gt :: rest =>
    match lastGT rest with
    | some g => some g
    | none => gt

/-- One value of the variant's open metadata store.  `read_vcf` logs plain
values (variant db ids, INFO values, per-sample FORMAT strings),
represented by `str`; the guard's stale metadata loop logs a whole
`get_metadata` result list as a single value, represented by a
cons-encoded list (`nilv`/`consv`) so that the type stays a plain
inductive with derivable decidable equality. -/
inductive MetaVal where
  | str (s : String)
  | nilv
  | consv (hd tl : MetaVal)
deriving DecidableEq, Repr

/-- Cons-encode a Python list value for the metadata store. -/
def MetaVal.ofList : List MetaVal → MetaVal
  | [] => MetaVal.nilv
  | v :: vs => MetaVal.consv v (MetaVal.ofList vs)

/-- The fields of an epytope `Variant` object relevant to the combinatorics
guard at the end of `read_vcf` (epaa.py lines 347-364): the positional
constructor arguments of `Variant(...)`, the `gene` attribute, and the open
multi-valued metadata store (key → list of logged values).  The `coding`
dictionary is represented by its key list (transcript ids); the
per-transcript `MutationSyntax` values are not consulted by the guard. -/
structure GVariant where
  id : String
  vtype : VariationType
  chrom : String
  genomePos : Nat
  ref : String
  obs : String
  coding : List String
  isHomozygous : Bool
  isSynonymous : Bool
  gene : String
  metadata : List (String × List MetaVal)
deriving DecidableEq, Repr

/-- Modelled from the spec: the epytope `Variant.get_metadata` accessor of
the open multi-valued metadata store ("key → list of values"); the library
itself is an external collaborator.  Absent keys yield the empty list
(`read_vcf` tests `len(variant.get_metadata(c)) != 0`). -/
def get_metadata (v : GVariant) (key : String) : List MetaVal :=
  match v.metadata.find? (fun p => p.1 == key) with
  | some p => p.2
  | none => []

/-- Modelled from the spec: the epytope `Variant.log_metadata` mutator —
append one value to the key's list, creating the key when absent
("multiple samples/INFO fields may contribute the same key"). -/
def log_metadata (v : GVariant) (key : String) (value : MetaVal) : GVariant :=
  { v with metadata :=
      if v.metadata.any (fun p => p.1 == key) then
        v.metadata.map (fun p => if p.1 == key then (p.1, p.2 ++ [value]) else p)
      else v.metadata ++ [(key, [value])] }

/-- Synthetic duplicate built by the guard (epaa.py lines 358-361):
`Variant(v.id, v.type, v.chrom, v.genomePos, v.ref, v.obs, v.coding, True,
v.isSynonymous)` copies the positional fields and forces the homozygous
flag, but passes NO `metadata` kwarg, so the duplicate starts with an
empty store (the original was built with `metadata={"consequence": ...}`
and logged vardbid/INFO/FORMAT entries).  `vs_new.gene = v.gene` copies
the gene, and then `for m in metadata_name: vs_new.log_metadata(m,
v.get_metadata(m))` iterates the CHARACTERS of the stale loop variable
`metadata_name` (left over from the per-record metadata loop at line 322),
logging whole `get_metadata` result lists under one-character keys — the
original metadata store is not copied. -/
def forceHomozygous (metadata_name : String) (v : GVariant) : GVariant :=
  metadata_name.toList.foldl
    (fun vs_new m =>
      log_metadata vs_new (String.singleton m)
        (MetaVal.ofList (get_metadata v (String.singleton m))))
    { v with isHomozygous := true, metadata := [] }

/-- One step of `transToVar.setdefault(trans_id, []).append(variant)`:
append `v` to the entry of `tid`, creating the entry at the end when the key
is new (Python dicts preserve insertion order). -/
def addToTranscript (m : List (String × List GVariant)) (tid : String)
    (v : GVariant) : List (String × List GVariant) :=
  if m.any (fun p => p.1 == tid) then
    m.map (fun p => if p.1 == tid then (p.1, p.2 ++ [v]) else p)
  else
    m ++ [(tid, [v])]

/-- Embedding of the `transToVar` construction in `read_vcf`: for each
variant of `list_vars` in order, for each transcript id of its coding
dictionary in order, append the variant to that transcript's bucket. -/
def transToVar (list_vars : List GVariant) : List (String × List GVariant) :=
  list_vars.foldl
    (fun m v => v.coding.foldl (fun m tid => addToTranscript m tid v) m) []

/-- The `dict_vars[v] = vs_new` assignment: overwrite the value stored under
key `k` (keys are the original variant objects). -/
def updateValue (d : List (GVariant × GVariant)) (k val : GVariant) :
    List (GVariant × GVariant) :=
  d.map (fun p => if p.1 = k then (p.1, val) else p)

/-- Embedding of the combinatorics guard of `read_vcf` (epaa.py lines
347-364): `dict_vars` starts with every constructed variant mapped to
itself; for each `(tId, vs)` of `transToVar` with `len(vs) > 10`, every
`v` in `vs` has its entry overwritten with the forced-homozygous duplicate;
finally `dict_vars.values()` is returned. -/
def applyGuard (metadata_name : String) (list_vars : List GVariant) :
    List GVariant :=
  (((transToVar list_vars).foldl
    (fun d it =>
      if it.2.length > 10 then
        it.2.foldl
          (fun d v => updateValue d v (forceHomozygous metadata_name v)) d
      else d)
    (list_vars.map (fun v => (v, v)))).map Prod.snd)

/-- Number of constructed variants whose coding dictionary references `tid`
(the length of `transToVar[tid]` when every coding key list is
duplicate-free). -/
def touchCount (list_vars : List GVariant) (tid : String) : Nat :=
  (list_vars.filter (fun w => w.coding.contains tid)).length

/-- Bucket lookup in an association list keyed by transcript id. -/
def lookupT (m : List (String × List GVariant)) (tid : String) :
    Option (List GVariant) :=
  (m.find? (fun p => p.1 == tid)).map Prod.snd

end Epaa

namespace Epaa

theorem lastGT_spec (samples : List (Option String)) :
    (samples.foldl
      (fun isHomozygous gt =>
        match gt with
        | some g => g == "1/1"
        | none => isHomozygous)
      false) =
    (match lastGT samples with
     | some g => g == "1/1"
     | none => false) := by
  suffices h : ∀ (b : Bool),
      (samples.foldl
        (fun isHomozygous gt =>
          match gt with
          | some g => g == "1/1"
          | none => isHomozygous) b) =
      (match lastGT samples with
       | some g => g == "1/1"
       | none => b) from h false
  induction samples with
  | nil => intro b; simp [lastGT]
  | cons hd tl ih =>
    intro b
    cases hd with
    | none =>
      simp only [List.foldl_cons]
      rw [ih b]
      cases htl : lastGT tl <;> simp [lastGT, htl]
    | some g =>
      simp only [List.foldl_cons]
      rw [ih (g == "1/1")]
      cases htl : lastGT tl <;> simp [lastGT, htl]

end Epaa

namespace Epaa

theorem lookupT_addToTranscript (m : List (String × List GVariant)) (t : String)
    (v : GVariant) (tid : String) :
    lookupT (addToTranscript m t v) tid =
      if tid = t then some ((lookupT m tid).getD [] ++ [v]) else lookupT m tid := by
  unfold addToTranscript lookupT
  by_cases hmem : (m.any (fun p => p.1 == t)) = true
  · rw [if_pos hmem, List.find?_map]
    have hcomp : ((fun p : String × List GVariant => p.1 == tid) ∘
        (fun p : String × List GVariant => if p.1 == t then (p.1, p.2 ++ [v]) else p)) =
        fun p : String × List GVariant => p.1 == tid := by
      funext p
      simp only [Function.comp_apply]
      by_cases hp : (p.1 == t) = true <;> simp [hp]
    rw [hcomp, Option.map_map]
    rcases hfind : m.find? (fun p => p.1 == tid) with _ | q
    · rw [hfind]
      by_cases htt : tid = t
      · exfalso
        obtain ⟨q, hq, hqt⟩ := List.any_eq_true.mp hmem
        rw [List.find?_eq_none] at hfind
        exact hfind q hq (by rw [htt]; exact hqt)
      · simp [htt]
    · have hq1 : q.1 = tid := by
        have := List.find?_some hfind
        simpa using this
      rw [hfind]
      by_cases htt : tid = t
      · simp [Function.comp, hq1, htt]
      · simp [Function.comp, hq1, htt, beq_iff_eq]
  · rw [if_neg hmem, List.find?_append]
    have hnone : m.find? (fun p => p.1 == t) = none := by
      rw [List.find?_eq_none]
      intro x hx hbx
      exact hmem (List.any_eq_true.mpr ⟨x, hx, hbx⟩)
    by_cases htt : tid = t
    · subst htt
      rw [hnone]
      simp
    · have hbeq : (t == tid) = false := beq_eq_false_iff_ne.mpr (Ne.symm htt)
      have hs : List.find? (fun p : String × List GVariant => p.1 == tid)
          [(t, [v])] = none := by
        simp [hbeq]
      rw [hs]
      simp [htt]

theorem lookupT_codingFold (c : List String) (v : GVariant) :
    ∀ (m : List (String × List GVariant)) (tid : String), c.Nodup →
    lookupT (c.foldl (fun m t => addToTranscript m t v) m) tid =
      if tid ∈ c then some ((lookupT m tid).getD [] ++ [v]) else lookupT m tid := by
  induction c with
  | nil => intro m tid _; simp
  | cons t c' ih =>
    intro m tid hnd
    simp only [List.foldl_cons]
    rw [ih _ tid (List.Nodup.of_cons hnd)]
    by_cases hc' : tid ∈ c'
    · have htt : tid ≠ t := fun h => (List.nodup_cons.mp hnd).1 (h ▸ hc')
      rw [lookupT_addToTranscript]
      simp [hc', htt]
    · by_cases htt : tid = t
      · subst htt
        rw [lookupT_addToTranscript]
        simp [hc']
      · rw [lookupT_addToTranscript]
        simp [hc', htt]

theorem lookupT_transToVarAux (l : List GVariant) :
    ∀ (m : List (String × List GVariant)) (tid : String),
      (∀ v ∈ l, v.coding.Nodup) →
      lookupT (l.foldl
          (fun m v => v.coding.foldl (fun m t => addToTranscript m t v) m) m) tid =
        (if (l.filter (fun w => w.coding.contains tid)) = [] then lookupT m tid
         else some ((lookupT m tid).getD [] ++
                    l.filter (fun w => w.coding.contains tid))) := by
  induction l with
  | nil => intro m tid _; simp
  | cons v l' ih =>
    intro m tid h
    simp only [List.foldl_cons]
    rw [ih _ tid (fun w hw => h w (List.mem_cons_of_mem _ hw))]
    rw [lookupT_codingFold v.coding v m tid (h v (List.mem_cons_self _ _))]
    by_cases hvc : tid ∈ v.coding
    · have hcont : v.coding.contains tid = true := by
        simpa [List.contains] using List.elem_iff.mpr hvc
      simp only [List.filter_cons, hcont, if_pos, if_true]
      by_cases hfl : l'.filter (fun w => w.coding.contains tid) = []
      · simp [hfl, hvc]
      · simp [hfl, hvc]
    · have hcont : v.coding.contains tid = false := by
        rcases hb : v.coding.contains tid with _ | _
        · rfl
        · exact absurd (List.elem_iff.mp (by simpa [List.contains] using hb)) hvc
      simp only [List.filter_cons, hcont, if_false]
      by_cases hfl : l'.filter (fun w => w.coding.contains tid) = []
      · simp [hfl, hvc]
      · simp [hfl, hvc]

theorem lookupT_transToVar (l : List GVariant) (tid : String)
    (h : ∀ v ∈ l, v.coding.Nodup) :
    lookupT (transToVar l) tid =
      if (l.filter (fun w => w.coding.contains tid)) = [] then none
      else some (l.filter (fun w => w.coding.contains tid)) := by
  unfold transToVar
  rw [lookupT_transToVarAux l [] tid h]
  simp [lookupT]

/-- Key list of a transcript bucket map. -/
def keysOf (m : List (String × List GVariant)) : List String :=
  m.map Prod.fst

theorem keysOf_addToTranscript (m : List (String × List GVariant)) (t : String)
    (v : GVariant) :
    keysOf (addToTranscript m t v) =
      if m.any (fun p => p.1 == t) then keysOf m else keysOf m ++ [t] := by
  unfold addToTranscript keysOf
  by_cases h : (m.any (fun p => p.1 == t)) = true
  · rw [if_pos h, if_pos h, List.map_map]
    apply List.map_congr_left
    intro p _
    simp only [Function.comp_apply]
    by_cases hp : (p.1 == t) = true <;> simp [hp]
  · rw [if_neg h, if_neg h]
    simp

theorem keysNodup_addToTranscript (m : List (String × List GVariant))
    (t : String) (v : GVariant) (h : (keysOf m).Nodup) :
    (keysOf (addToTranscript m t v)).Nodup := by
  rw [keysOf_addToTranscript]
  by_cases hmem : (m.any (fun p => p.1 == t)) = true
  · rwa [if_pos hmem]
  · rw [if_neg hmem]
    rw [List.nodup_append]
    refine ⟨h, List.nodup_singleton t, ?_⟩
    intro x hx hxt
    rcases List.mem_singleton.mp hxt with rfl
    obtain ⟨p, hp, hpt⟩ := List.mem_map.mp hx
    exact hmem (List.any_eq_true.mpr ⟨p, hp, by simp [hpt]⟩)

theorem keysNodup_codingFold (c : List String) (v : GVariant) :
    ∀ m, (keysOf m).Nodup →
      (keysOf (c.foldl (fun m t => addToTranscript m t v) m)).Nodup := by
  induction c with
  | nil => intro m h; simpa using h
  | cons t c' ih =>
    intro m h
    simp only [List.foldl_cons]
    exact ih _ (keysNodup_addToTranscript m t v h)

theorem keysNodup_transToVar (l : List GVariant) :
    (keysOf (transToVar l)).Nodup := by
  unfold transToVar
  suffices hgen : ∀ m, (keysOf m).Nodup →
      (keysOf (l.foldl
        (fun m v => v.coding.foldl (fun m t => addToTranscript m t v) m) m)).Nodup by
    exact hgen [] (by simp [keysOf])
  induction l with
  | nil => intro m h; simpa using h
  | cons v l' ih =>
    intro m h
    simp only [List.foldl_cons]
    exact ih _ (keysNodup_codingFold v.coding v m h)

theorem lookupT_of_mem (m : List (String × List GVariant)) (tid : String)
    (vs : List GVariant) (hnd : (keysOf m).Nodup) (hmem : (tid, vs) ∈ m) :
    lookupT m tid = some vs := by
  induction m with
  | nil => cases hmem
  | cons p m' ih =>
    rcases List.mem_cons.mp hmem with heq | hmem'
    · rw [← heq]
      unfold lookupT
      simp [List.find?_cons]
    · have hk : keysOf (p :: m') = p.1 :: keysOf m' := rfl
      rw [hk] at hnd
      have h1 := (List.nodup_cons.mp hnd).1
      have h2 := (List.nodup_cons.mp hnd).2
      have hne : (p.1 == tid) = false := by
        rw [beq_eq_false_iff_ne]
        intro hcon
        apply h1
        rw [hcon]
        exact List.mem_map.mpr ⟨(tid, vs), hmem', rfl⟩
      unfold lookupT
      rw [List.find?_cons, hne]
      exact ih h2 hmem'

theorem mem_of_lookupT (m : List (String × List GVariant)) (tid : String)
    (vs : List GVariant) (h : lookupT m tid = some vs) : (tid, vs) ∈ m := by
  unfold lookupT at h
  rcases hfind : m.find? (fun p => p.1 == tid) with _ | q
  · rw [hfind] at h; cases h
  · rw [hfind] at h
    have hq1 : q.1 = tid := by
      have := List.find?_some hfind
      simpa using this
    have hq2 : q.2 = vs := by simpa using h
    have hqm := List.mem_of_find?_eq_some hfind
    have : q = (tid, vs) := by
      rcases q with ⟨a, b⟩
      simp only at hq1 hq2
      rw [hq1, hq2]
    rwa [this] at hqm

/-- A variant is hit by the guard when some bucket of the transcript map has
more than 10 variants and contains it. -/
def guardTriggered (items : List (String × List GVariant)) (v : GVariant) :
    Bool :=
  items.any (fun it => decide (it.2.length > 10) && decide (v ∈ it.2))

theorem updateFold_eq_map (metadata_name : String) (vs : List GVariant) :
    ∀ d : List (GVariant × GVariant),
      vs.foldl
        (fun d v => updateValue d v (forceHomozygous metadata_name v)) d =
        d.map (fun p => if p.1 ∈ vs then
          (p.1, forceHomozygous metadata_name p.1) else p) := by
  induction vs with
  | nil =>
    intro d
    simp
  | cons v vs' ih =>
    intro d
    simp only [List.foldl_cons]
    rw [ih]
    unfold updateValue
    rw [List.map_map]
    apply List.map_congr_left
    intro p _
    simp only [Function.comp_apply]
    by_cases h1 : p.1 = v
    · by_cases h2 : p.1 ∈ vs' <;> simp [h1, h2]
    · by_cases h2 : p.1 ∈ vs' <;> simp [h1, h2]

theorem guardFold_eq_map (metadata_name : String)
    (items : List (String × List GVariant)) :
    ∀ d : List (GVariant × GVariant),
      items.foldl
        (fun d it =>
          if it.2.length > 10 then
            it.2.foldl
              (fun d v => updateValue d v (forceHomozygous metadata_name v)) d
          else d) d =
      d.map (fun p =>
        if guardTriggered items p.1 then
          (p.1, forceHomozygous metadata_name p.1) else p) := by
  induction items with
  | nil =>
    intro d
    simp [guardTriggered]
  | cons it items' ih =>
    intro d
    simp only [List.foldl_cons]
    by_cases hlen : it.2.length > 10
    · rw [if_pos hlen, updateFold_eq_map metadata_name, ih, List.map_map]
      apply List.map_congr_left
      intro p _
      simp only [Function.comp_apply]
      by_cases h1 : p.1 ∈ it.2
      · have hg : guardTriggered (it :: items') p.1 = true := by
          unfold guardTriggered
          rw [List.any_cons, decide_eq_true hlen, decide_eq_true h1]
          simp
        rw [if_pos h1, hg]
        cases hb : guardTriggered items' p.1 <;> simp [hb]
      · have hg : guardTriggered (it :: items') p.1 = guardTriggered items' p.1 := by
          unfold guardTriggered
          rw [List.any_cons, decide_eq_false h1]
          simp
        rw [if_neg h1, hg]
    · rw [if_neg hlen, ih]
      apply List.map_congr_left
      intro p _
      have hg : guardTriggered (it :: items') p.1 = guardTriggered items' p.1 := by
        unfold guardTriggered
        rw [List.any_cons, decide_eq_false hlen]
        simp
      rw [hg]

theorem applyGuard_eq_map (metadata_name : String) (l : List GVariant) :
    applyGuard metadata_name l =
      l.map (fun v =>
        if guardTriggered (transToVar l) v then
          forceHomozygous metadata_name v else v) := by
  unfold applyGuard
  rw [guardFold_eq_map metadata_name, List.map_map, List.map_map]
  apply List.map_congr_left
  intro v _
  simp only [Function.comp_apply]
  by_cases h : guardTriggered (transToVar l) v <;> simp [h]

theorem guardTriggered_iff (l : List GVariant) (v : GVariant)
    (hv : v ∈ l) (h : ∀ w ∈ l, w.coding.Nodup) :
    guardTriggered (transToVar l) v = true ↔
      ∃ tid ∈ v.coding, 10 < touchCount l tid := by
  constructor
  · intro htrig
    obtain ⟨it, hit, hcond⟩ := List.any_eq_true.mp htrig
    rw [Bool.and_eq_true] at hcond
    obtain ⟨hlen, hvin⟩ := hcond
    rw [decide_eq_true_eq] at hlen hvin
    have hpair : (it.1, it.2) ∈ transToVar l := by
      rcases it with ⟨a, b⟩; exact hit
    have hlk := lookupT_of_mem _ _ _ (keysNodup_transToVar l) hpair
    rw [lookupT_transToVar l it.1 h] at hlk
    by_cases hfl : l.filter (fun w => w.coding.contains it.1) = []
    · rw [if_pos hfl] at hlk; cases hlk
    · rw [if_neg hfl] at hlk
      have hlk' : it.2 = l.filter (fun w => w.coding.contains it.1) := by
        injection hlk with heq; exact heq.symm
      refine ⟨it.1, ?_, ?_⟩
      · have hvf := hlk' ▸ hvin
        have := (List.mem_filter.mp hvf).2
        exact List.elem_iff.mp (by simpa [List.contains] using this)
      · unfold touchCount
        rw [← hlk']
        exact hlen
  · rintro ⟨tid, htid, hcount⟩
    have hvf : v ∈ l.filter (fun w => w.coding.contains tid) :=
      List.mem_filter.mpr ⟨hv, by simpa [List.contains] using List.elem_iff.mpr htid⟩
    have hfl : l.filter (fun w => w.coding.contains tid) ≠ [] := by
      intro hc; rw [hc] at hvf; cases hvf
    have hlk : lookupT (transToVar l) tid =
        some (l.filter (fun w => w.coding.contains tid)) := by
      rw [lookupT_transToVar l tid h, if_neg hfl]
    have hmem := mem_of_lookupT _ _ _ hlk
    apply List.any_eq_true.mpr
    refine ⟨(tid, l.filter (fun w => w.coding.contains tid)), hmem, ?_⟩
    rw [Bool.and_eq_true, decide_eq_true_eq, decide_eq_true_eq]
    exact ⟨hcount, hvf⟩

theorem forceHomozygous_eq (metadata_name : String) (v : GVariant) :
    ∃ md, forceHomozygous metadata_name v =
      { v with isHomozygous := true, metadata := md } := by
  unfold forceHomozygous
  suffices h : ∀ (cs : List Char) (md0 : List (String × List MetaVal)),
      ∃ md, cs.foldl
        (fun vs_new m =>
          log_metadata vs_new (String.singleton m)
            (MetaVal.ofList (get_metadata v (String.singleton m))))
        { v with isHomozygous := true, metadata := md0 } =
        { v with isHomozygous := true, metadata := md } from
    h metadata_name.toList []
  intro cs
  induction cs with
  | nil =>
    intro md0
    exact ⟨md0, rfl⟩
  | cons c cs ih =>
    intro md0
    simp only [List.foldl_cons]
    exact ih _

theorem forceHomozygous_isHomozygous (metadata_name : String)
    (v : GVariant) :
    (forceHomozygous metadata_name v).isHomozygous = true := by
  obtain ⟨md, h⟩ := forceHomozygous_eq metadata_name v
  rw [h]

/-- Eleven variants reference transcript T1 (the first also references T2)
and one further variant references only T2, so T1 has 11 > 10 variants while
T2 has 2 ≤ 10. -/
def guardExample : List GVariant :=
  [⟨"a", .SNP, "1", 100, "A", "T", ["T1", "T2"], false, false, "g",
      [("vardbid", [MetaVal.str "rs1"])]⟩,
   ⟨"b", .SNP, "1", 101, "A", "T", ["T1"], false, false, "g", []⟩,
   ⟨"c", .SNP, "1", 102, "A", "T", ["T1"], false, false, "g", []⟩,
   ⟨"d", .SNP, "1", 103, "A", "T", ["T1"], false, false, "g", []⟩,
   ⟨"e", .SNP, "1", 104, "A", "T", ["T1"], false, false, "g", []⟩,
   ⟨"f", .SNP, "1", 105, "A", "T", ["T1"], false, false, "g", []⟩,
   ⟨"h", .SNP, "1", 106, "A", "T", ["T1"], false, false, "g", []⟩,
   ⟨"i", .SNP, "1", 107, "A", "T", ["T1"], false, false, "g", []⟩,
   ⟨"j", .SNP, "1", 108, "A", "T", ["T1"], false, false, "g", []⟩,
   ⟨"k", .SNP, "1", 109, "A", "T", ["T1"], false, false, "g", []⟩,
   ⟨"l", .SNP, "1", 110, "A", "T", ["T1"], false, false, "g", []⟩,
   ⟨"m", .SNP, "1", 111, "A", "T", ["T2"], false, false, "g", []⟩]

/-- Single heterozygous variant on one transcript (guard leaves it alone). -/
def guardSmall : List GVariant :=
  [⟨"a", .SNP, "1", 5, "A", "T", ["T1"], false, false, "g", []⟩]

/-- C3 (amended): every variant of the guard's output that touches a
transcript referenced by more than 10 constructed variants reports
homozygous = true; elementwise, a variant touching some such overloaded
transcript is replaced by the synthetic duplicate `forceHomozygous
metadata_name v`, which copies id, type, chromosome, position, alleles,
coding, synonymous flag and gene and forces the homozygous flag, but does
NOT copy the metadata store (the duplicate is built without the metadata
kwarg and then filled by the stale per-character `metadata_name` loop);
a variant all of whose transcripts carry at most 10 variants is returned
unchanged. -/
theorem C3_guard_forces_homozygous (metadata_name : String)
    (l : List GVariant)
    (hnd : l.Nodup) (hc : ∀ v ∈ l, v.coding.Nodup) :
    (∀ w ∈ applyGuard metadata_name l, ∀ tid ∈ w.coding,
        10 < touchCount l tid → w.isHomozygous = true) ∧
    List.Forall₂ (fun v w =>
      ((∃ tid ∈ v.coding, 10 < touchCount l tid) →
        w = forceHomozygous metadata_name v ∧
        ∃ md, w = { v with isHomozygous := true, metadata := md }) ∧
      ((∀ tid ∈ v.coding, touchCount l tid ≤ 10) → w = v))
      l (applyGuard metadata_name l) := by
  constructor
  · intro w hw tid htid hcount
    rw [applyGuard_eq_map metadata_name] at hw
    obtain ⟨v, hv, hvw⟩ := List.mem_map.mp hw
    by_cases htrig : guardTriggered (transToVar l) v = true
    · simp only [htrig, if_true] at hvw
      rw [← hvw]
      exact forceHomozygous_isHomozygous metadata_name v
    · have hfalse : guardTriggered (transToVar l) v = false := by
        cases hb : guardTriggered (transToVar l) v
        · rfl
        · exact absurd hb htrig
      simp only [hfalse, Bool.false_eq_true, if_false] at hvw
      exfalso
      apply htrig
      rw [guardTriggered_iff l v hv hc]
      refine ⟨tid, ?_, hcount⟩
      rw [hvw]
      exact htid
  · rw [applyGuard_eq_map metadata_name]
    rw [List.forall₂_map_right_iff]
    rw [List.forall₂_same]
    intro v hv
    constructor
    · intro hex
      have htrig : guardTriggered (transToVar l) v = true :=
        (guardTriggered_iff l v hv hc).mpr hex
      have hfv : (if guardTriggered (transToVar l) v = true then
          forceHomozygous metadata_name v else v) =
          forceHomozygous metadata_name v := by
        simp [htrig]
      rw [hfv]
      exact ⟨rfl, forceHomozygous_eq metadata_name v⟩
    · intro hall
      have htrig : guardTriggered (transToVar l) v = false := by
        cases hb : guardTriggered (transToVar l) v
        · rfl
        · obtain ⟨tid, htid, hcount⟩ := (guardTriggered_iff l v hv hc).mp hb
          exact absurd hcount (not_lt.mpr (hall tid htid))
      simp [htrig]

/-- C3 counterexample, refuting both halves of the claim as stated.
First, transcript T2 is referenced by only 2 ≤ 10 variants, yet the
variant "a" touching T2 is not left unchanged by the guard — it also
touches the overloaded transcript T1, so its only occurrence in the
returned collection is forced homozygous.  Second, "the other fields
copied" fails for the metadata store: variant "a" carries the metadata
entry vardbid → "rs1", but its replacement (with the stale loop variable
`metadata_name = "DP"`) instead holds the junk one-character keys "D" and
"P", each mapping to a logged (cons-encoded) empty list. -/
theorem C3_counterexample :
    touchCount guardExample "T2" = 2 ∧
    (∃ v ∈ guardExample, "T2" ∈ v.coding ∧ v.isHomozygous = false ∧
      ∀ w ∈ applyGuard "DP" guardExample, w.id ≠ v.id ∨
        w.isHomozygous = true) ∧
    (∃ v ∈ guardExample, v.id = "a" ∧
      v.metadata = [("vardbid", [MetaVal.str "rs1"])] ∧
      ∀ w ∈ applyGuard "DP" guardExample, w.id ≠ "a" ∨
        w.metadata = [("D", [MetaVal.nilv]), ("P", [MetaVal.nilv])]) := by
  decide

/-- Witness for `C3_guard_forces_homozygous` at a concrete input. -/
theorem C3_witness :
    guardSmall.Nodup ∧ (∀ v ∈ guardSmall, v.coding.Nodup) ∧
    ((∀ w ∈ applyGuard "DP" guardSmall, ∀ tid ∈ w.coding,
        10 < touchCount guardSmall tid → w.isHomozygous = true) ∧
     List.Forall₂ (fun v w =>
      ((∃ tid ∈ v.coding, 10 < touchCount guardSmall tid) →
          w = forceHomozygous "DP" v ∧
          ∃ md, w = { v with isHomozygous := true, metadata := md }) ∧
      ((∀ tid ∈ v.coding, touchCount guardSmall tid ≤ 10) → w = v))
      guardSmall (applyGuard "DP" guardSmall)) :=
  ⟨by decide, by decide,
   C3_guard_forces_homozygous "DP" guardSmall (by decide) (by decide)⟩

/-- Substring test used by Python's `pep in prot` on strings. -/
def isSubstringOf (needle hay : String) : Bool :=
  (List.range (hay.toList.length + 1)).any
    (fun i => needle.toList.isPrefixOf (hay.toList.drop i))

/-- Embedding of the reference-proteome filter in `__main__` (epaa.py line
757): the table keeps exactly the rows whose sequence satisfies
`any([pep in prot for prot in fasta_dict.values()])`, i.e. the peptides that
DO occur in some reference protein.  `parse_fasta` supplies the reference
protein sequences (`fasta_dict.values()`). -/
def filter_peptides_by_reference (sequences : List String)
    (proteome : List String) : List String :=
  sequences.filter (fun pep => proteome.any (fun prot => isSubstringOf pep prot))

theorem isSubstringOf_correct (needle hay : String) :
    isSubstringOf needle hay = true ↔
      ∃ s t : List Char, hay.toList = s ++ needle.toList ++ t := by
  unfold isSubstringOf
  rw [List.any_eq_true]
  constructor
  · rintro ⟨i, _, hpre⟩
    rw [List.isPrefixOf_iff_prefix] at hpre
    obtain ⟨t, ht⟩ := hpre
    exact ⟨hay.toList.take i, t,
      by rw [List.append_assoc, ht, List.take_append_drop]⟩
  · rintro ⟨s, t, hst⟩
    refine ⟨s.length, ?_, ?_⟩
    · rw [List.mem_range]
      rw [hst]
      simp only [List.length_append]
      omega
    · rw [List.isPrefixOf_iff_prefix, hst, List.append_assoc, List.drop_left]
      exact ⟨t, rfl⟩

/-- C1 (code bug): with reference protein "ACDEF", the peptide "ACD" occurs
in the reference proteome and the peptide "XYZ" does not, yet the filter at
epaa.py line 757 returns exactly ["ACD"]: it retains the peptide found in
the reference and drops the novel one — the opposite of the spec and of the
script's own log message ("Filtered out ... peptides that were found in the
reference proteome"). -/
theorem C1_filter_keeps_reference_peptides :
    isSubstringOf "ACD" "ACDEF" = true ∧
    isSubstringOf "XYZ" "ACDEF" = false ∧
    filter_peptides_by_reference ["ACD", "XYZ"] ["ACDEF"] = ["ACD"] := by
  decide

/-- C4: normalization of deletion variants (DEL or FSDEL) with alternate
allele ≠ "-" returns alternate "-", reference = the suffix of the original
reference after the alternate's length, and position advanced by the
alternate's length; a deletion with alternate "-" and every SNP pass
through unchanged. -/
theorem C4_del_normalization (vt : VariationType) (p : Nat) (r alt : String)
    (hvt : vt = VariationType.DEL ∨ vt = VariationType.FSDEL) :
    (alt ≠ "-" → get_epytope_ann vt p r alt =
        some (p + alt.length, r.drop alt.length, "-")) ∧
    (alt = "-" → get_epytope_ann vt p r alt = some (p, r, alt)) ∧
    (∀ p' r' alt', get_epytope_ann VariationType.SNP p' r' alt' =
        some (p', r', alt')) := by
  rcases hvt with rfl | rfl <;>
    exact ⟨fun h => by simp [get_epytope_ann, h],
           fun h => by simp [get_epytope_ann, h],
           fun p' r' alt' => rfl⟩

/-- Witness for `C4_del_normalization` at concrete inputs. -/
theorem C4_witness :
    get_epytope_ann VariationType.DEL 100 "ACGT" "AC" =
      some (102, "GT", "-") ∧
    get_epytope_ann VariationType.FSDEL 7 "TTT" "-" =
      some (7, "TTT", "-") ∧
    get_epytope_ann VariationType.SNP 3 "A" "G" = some (3, "A", "G") :=
  ⟨((C4_del_normalization VariationType.DEL 100 "ACGT" "AC"
      (Or.inl rfl)).1 (by decide)).trans (by decide),
   (C4_del_normalization VariationType.FSDEL 7 "TTT" "-" (Or.inr rfl)).2.1 rfl,
   (C4_del_normalization VariationType.DEL 100 "ACGT" "AC"
      (Or.inl rfl)).2.2 3 "A" "G"⟩

/-- C5: `determine_variant_type` returns SNP iff the record's single-base
substitution predicate holds; for a non-SNP indel record the result is a
frameshift type iff `abs(len(alt) - len(ref)) % 3 ≠ 0` and a deletion type
iff the record's own deletion flag is set; a record that is neither SNP nor
indel is classified UNKNOWN. -/
theorem C5_variant_type_classification (record : VcfTypeRecord)
    (alternative : String) :
    (determine_variant_type record alternative = VariationType.SNP ↔
        record.is_snp = true) ∧
    (record.is_snp = false → record.is_indel = true →
      ((determine_variant_type record alternative = VariationType.FSDEL ∨
        determine_variant_type record alternative = VariationType.FSINS) ↔
        ((alternative.length : Int) -
          (record.REF.length : Int)).natAbs % 3 ≠ 0) ∧
      ((determine_variant_type record alternative = VariationType.DEL ∨
        determine_variant_type record alternative = VariationType.FSDEL) ↔
        record.is_deletion = true)) ∧
    (record.is_snp = false → record.is_indel = false →
      determine_variant_type record alternative = VariationType.UNKNOWN) := by
  rcases record with ⟨s, i, d, ref⟩
  cases s <;> cases i <;> cases d <;>
    by_cases hm : ((alternative.length : Int) - (ref.length : Int)).natAbs % 3 = 0 <;>
      simp [determine_variant_type, hm]

/-- Witness for `C5_variant_type_classification` at concrete inputs. -/
theorem C5_witness :
    ((determine_variant_type ⟨false, true, true, "A"⟩ "ACG" =
        VariationType.FSDEL ∨
      determine_variant_type ⟨false, true, true, "A"⟩ "ACG" =
        VariationType.FSINS) ↔
      ((("ACG" : String).length : Int) -
        (("A" : String).length : Int)).natAbs % 3 ≠ 0) ∧
    determine_variant_type ⟨false, false, false, "A"⟩ "G" =
      VariationType.UNKNOWN :=
  ⟨((C5_variant_type_classification ⟨false, true, true, "A"⟩ "ACG").2.1
      rfl rfl).1,
   (C5_variant_type_classification ⟨false, false, false, "A"⟩ "G").2.2
      rfl rfl⟩

/-- C10: `get_epytope_annotation` yields a canonical triple exactly for the
five known variation types and fails with an unbound-local error for
UNKNOWN, and UNKNOWN is produced for every coding-annotated record that is
neither a single-base substitution nor an indel. -/
theorem C10_unknown_fails (vt : VariationType) (p : Nat) (r alt : String) :
    ((get_epytope_ann vt p r alt).isSome = true ↔
        vt ≠ VariationType.UNKNOWN) ∧
    (∀ (record : VcfTypeRecord) (alternative : String),
      record.is_snp = false → record.is_indel = false →
      determine_variant_type record alternative = VariationType.UNKNOWN) := by
  constructor
  · cases vt <;> simp only [get_epytope_ann] <;> (try split) <;> simp
  · intro record alternative h1 h2
    simp [determine_variant_type, h1, h2]

/-- Witness for `C10_unknown_fails` at concrete inputs. -/
theorem C10_witness :
    determine_variant_type ⟨false, false, false, "AT"⟩ "A" =
      VariationType.UNKNOWN :=
  (C10_unknown_fails VariationType.UNKNOWN 0 "" "").2
    ⟨false, false, false, "AT"⟩ "A" rfl rfl

/-- C6 (amended): zygosity rules in priority order. A record with a HOM
info entry is homozygous iff HOM == 1 regardless of SGT or samples; with no
HOM but an SGT entry, the code after "->" decides via the het/hom/ref map
or else by comparing its first two characters; with neither, the LAST
sample that carries a GT value decides (homozygous iff that GT is "1/1"),
and a record with none of the three is heterozygous. -/
theorem C6_zygosity_rules (record : VcfZygRecord) :
    (∀ h, record.infoHOM = some h →
        determine_zygosity record = some (h == 1)) ∧
    (record.infoHOM = none → ∀ sgt, record.infoSGT = some sgt →
      ∀ zyg, (pySplit "->".toList sgt.toList).get? 1 = some zyg →
        (zyg = "het".toList → determine_zygosity record = some false) ∧
        (zyg = "hom".toList → determine_zygosity record = some true) ∧
        (zyg = "ref".toList → determine_zygosity record = some true) ∧
        (zyg ≠ "het".toList → zyg ≠ "hom".toList → zyg ≠ "ref".toList →
          ∀ c0 c1, zyg.get? 0 = some c0 → zyg.get? 1 = some c1 →
            determine_zygosity record = some (c0 == c1))) ∧
    (record.infoHOM = none → record.infoSGT = none →
      determine_zygosity record = some
        (match lastGT record.sampleGT with
         | some g => g == "1/1"
         | none => false)) := by
  refine ⟨?_, ?_, ?_⟩
  · intro h hh
    unfold determine_zygosity
    rw [hh]
  · intro hhom sgt hsgt zyg hzyg
    unfold determine_zygosity
    simp only [hhom, hsgt]
    rw [hzyg]
    refine ⟨fun h => by simp [h], fun h => by simp [h], fun h => by simp [h],
            ?_⟩
    intro hne1 hne2 hne3 c0 c1 hc0 hc1
    have e1 : ("het".toList : List Char) = ['h', 'e', 't'] := rfl
    have e2 : ("hom".toList : List Char) = ['h', 'o', 'm'] := rfl
    have e3 : ("ref".toList : List Char) = ['r', 'e', 'f'] := rfl
    rw [e1] at hne1
    rw [e2] at hne2
    rw [e3] at hne3
    rw [List.get?_eq_getElem?] at hc0 hc1
    simp [hne1, hne2, hne3, hc0, hc1]
  · intro hhom hsgt
    unfold determine_zygosity
    simp only [hhom, hsgt]
    rw [lastGT_spec]

/-- C6 counterexample: a record with no HOM and no SGT info whose samples
carry GT values "1/1" then "0/1" has a sample genotype equal to "1/1", yet
`determine_zygosity` reports heterozygous, because the loop keeps the last
GT-carrying sample rather than asking whether any sample is "1/1". -/
theorem C6_counterexample :
    (some "1/1") ∈ (VcfZygRecord.mk none none
        [some "1/1", some "0/1"]).sampleGT ∧
    determine_zygosity (VcfZygRecord.mk none none
        [some "1/1", some "0/1"]) = some false := by
  decide

/-- Witness for `C6_zygosity_rules` at a concrete record per rule. -/
theorem C6_witness :
    determine_zygosity ⟨some 1, none, []⟩ = some true ∧
    determine_zygosity ⟨none, some "ref->het", []⟩ = some false ∧
    determine_zygosity ⟨none, none, [some "1/1"]⟩ = some true := by
  refine ⟨?_, ?_, ?_⟩
  · exact ((C6_zygosity_rules ⟨some 1, none, []⟩).1 1 rfl).trans (by decide)
  · have hz : ((pySplit "->".toList ("ref->het" : String).toList).get? 1) =
        some "het".toList := by decide
    exact ((C6_zygosity_rules ⟨none, some "ref->het", []⟩).2.1 rfl
      "ref->het" rfl "het".toList hz).1 rfl
  · exact ((C6_zygosity_rules ⟨none, none, [some "1/1"]⟩).2.2 rfl rfl).trans
      (by decide)

/-- Embedding of `create_gene_column_value(pep, pep_dictionary)` (epaa.py
lines 404-405): `",".join(set([variant.gene for variant in ...]))`.
Python's `set` iterates in an unspecified, hash-seed-dependent order, so
the function is modelled on the enumeration the set iterator yields:
`gene_enum` is a duplicate-free enumeration of the distinct gene values of
the contributing variants.  The sibling column builders (chr, pos,
transcripts, variant type, mutation syntax, ...) share this same
join-a-set shape. -/
def create_gene_column_value (gene_enum : List String) : String :=
  String.intercalate "," gene_enum

/-- Embedding of `unique_join(obj)` (epaa.py lines 687-694) applied to the
cell values of one peptide-table column: `tmp = ",".join(cells)`, and the
result is `",".join(sorted(set(tmp.split(",")))) if tmp else ""` —
individual cells may already be comma-separated, so the joined string is
re-split before deduplication and sorting.  Python's `sorted` on distinct
strings is the unique ascending enumeration, modelled with
`insertionSort`. -/
def unique_join (cells : List String) : String :=
  let tmp := String.intercalate "," cells
  if tmp = "" then ""
  else
    String.intercalate ","
      (List.insertionSort (fun a b => a ≤ b)
        (((pySplit ",".toList tmp.toList).map (fun l => l.asString)).dedup))

theorem pySplitAux_ne_nil (sep : List Char) :
    ∀ (fuel : Nat) (s : List Char), pySplitAux sep fuel s ≠ [] := by
  intro fuel
  cases fuel with
  | zero => intro s h; cases h
  | succ n =>
    intro s
    unfold pySplitAux
    cases findSubstringIdx sep s <;> simp

theorem pySplit_eq_singleton_nil (sep s : List Char)
    (h : pySplit sep s = [[]]) : s = [] := by
  unfold pySplit pySplitAux at h
  rcases hf : findSubstringIdx sep s with _ | i
  · rw [hf] at h
    simpa using h
  · rw [hf] at h
    simp only [List.cons.injEq] at h
    exact absurd h.2 (pySplitAux_ne_nil sep _ _)

/-- C2 counterexample: the table-column join used by
`create_gene_column_value` is order-sensitive — the two duplicate-free
enumerations ["a", "b"] and ["b", "a"] of the same gene set produce
different strings, so the field is not obtained by sorting before joining
and is not a function of the element set alone. -/
theorem C2_counterexample :
    (["a", "b"] : List String).Perm ["b", "a"] ∧
    (["a", "b"] : List String).Nodup ∧
    (["b", "a"] : List String).Nodup ∧
    create_gene_column_value ["a", "b"] ≠ create_gene_column_value ["b", "a"] := by
  refine ⟨List.Perm.swap "b" "a" [], by decide, by decide, by decide⟩

/-- C2 (amended): the FASTA-metadata joiner `unique_join` deduplicates and
sorts the (re-split) items before joining, so its output depends only on
the underlying item set: any two cell lists whose re-split item lists are
permutations of one another join to the same string. -/
theorem C2_unique_join_order_insensitive (cells cells' : List String)
    (hperm : (pySplit ",".toList (String.intercalate "," cells).toList).Perm
             (pySplit ",".toList (String.intercalate "," cells').toList)) :
    unique_join cells = unique_join cells' := by
  unfold unique_join
  by_cases h1 : String.intercalate "," cells = ""
  · by_cases h2 : String.intercalate "," cells' = ""
    · rw [if_pos h1, if_pos h2]
    · exfalso
      rw [h1] at hperm
      have hsplit : pySplit ",".toList ("" : String).toList = [[]] := rfl
      rw [hsplit] at hperm
      have := List.singleton_perm.mp hperm
      have hnil := pySplit_eq_singleton_nil ",".toList
        (String.intercalate "," cells').toList this.symm
      apply h2
      apply String.ext
      simpa using hnil
  · by_cases h2 : String.intercalate "," cells' = ""
    · exfalso
      rw [h2] at hperm
      have hsplit : pySplit ",".toList ("" : String).toList = [[]] := rfl
      rw [hsplit] at hperm
      have := List.perm_singleton.mp hperm
      have hnil := pySplit_eq_singleton_nil ",".toList
        (String.intercalate "," cells).toList this
      apply h1
      apply String.ext
      simpa using hnil
    · rw [if_neg h1, if_neg h2]
      congr 1
      have hp1 := List.perm_insertionSort (fun a b : String => a ≤ b)
        (((pySplit ",".toList (String.intercalate "," cells).toList).map
            (fun l => l.asString)).dedup)
      have hp2 := List.perm_insertionSort (fun a b : String => a ≤ b)
        (((pySplit ",".toList (String.intercalate "," cells').toList).map
            (fun l => l.asString)).dedup)
      have hp3 : (((pySplit ",".toList
            (String.intercalate "," cells).toList).map
              (fun l => l.asString)).dedup).Perm
          (((pySplit ",".toList
            (String.intercalate "," cells').toList).map
              (fun l => l.asString)).dedup) :=
        List.Perm.dedup (List.Perm.map _ hperm)
      have hs1 := List.sorted_insertionSort (fun a b : String => a ≤ b)
        (((pySplit ",".toList (String.intercalate "," cells).toList).map
            (fun l => l.asString)).dedup)
      have hs2 := List.sorted_insertionSort (fun a b : String => a ≤ b)
        (((pySplit ",".toList (String.intercalate "," cells').toList).map
            (fun l => l.asString)).dedup)
      exact List.eq_of_perm_of_sorted (hp1.trans (hp3.trans hp2.symm)) hs1 hs2

/-- Witness for `C2_unique_join_order_insensitive`: the single
already-comma-separated cell "b,a" and the two cells ["a", "b"] re-split to
permuted item lists and join identically. -/
theorem C2_witness :
    (pySplit ",".toList (String.intercalate "," ["b,a"]).toList).Perm
      (pySplit ",".toList (String.intercalate "," ["a", "b"]).toList) ∧
    unique_join ["b,a"] = unique_join ["a", "b"] :=
  ⟨by decide,
   C2_unique_join_order_insensitive ["b,a"] ["a", "b"] (by decide)⟩

/-- Abstraction of an epytope peptide as consumed by the sweep loop: its
sequence and the result of `p.is_created_by_variant()`. -/
structure SweepPeptide where
  sequence : String
  created_by_variant : Bool
deriving DecidableEq, Repr

/-- Embedding of the per-length loop of `generate_peptides_from_variants`
(epaa.py lines 514-579).  The external resolver call
`generator.generate_peptides_from_proteins(prots, peplen)` is abstracted as
`gen`; the loop runs over Python `range(minlength, maxlength)` (half-open),
keeps the windows whose created-by-variant flag is true, skips a length
entirely when it yields zero such peptides (`continue`, so no empty
partition is appended), and collects one table partition per remaining
length. -/
def generate_peptides_partitions (gen : Nat → List SweepPeptide)
    (minlength maxlength : Nat) : List (Nat × List SweepPeptide) :=
  (List.range' minlength (maxlength - minlength)).foldl
    (fun acc peplen =>
      let mutated_peptides := (gen peplen).filter (fun p => p.created_by_variant)
      if mutated_peptides.length = 0 then acc
      else acc ++ [(peplen, mutated_peptides)])
    []

/-- The `__main__` call at epaa.py line 745 passes `args.max_length + 1` as
`maxlength`, so the sweep covers the inclusive range
[min_length, max_length]. -/
def main_sweep (gen : Nat → List SweepPeptide) (min_length max_length : Nat) :
    List (Nat × List SweepPeptide) :=
  generate_peptides_partitions gen min_length (max_length + 1)

/-- The final table: `pd.concat(mutated_peptides_df)` — the row union of
the per-length partitions, in length order. -/
def main_sweep_table (gen : Nat → List SweepPeptide)
    (min_length max_length : Nat) : List SweepPeptide :=
  (main_sweep gen min_length max_length).foldl (fun acc p => acc ++ p.2) []

theorem partitions_aux (gen : Nat → List SweepPeptide) (xs : List Nat) :
    ∀ acc, xs.foldl
      (fun acc peplen =>
        let mutated_peptides := (gen peplen).filter (fun p => p.created_by_variant)
        if mutated_peptides.length = 0 then acc
        else acc ++ [(peplen, mutated_peptides)]) acc =
    acc ++ xs.filterMap (fun peplen =>
        let mutated_peptides := (gen peplen).filter (fun p => p.created_by_variant)
        if mutated_peptides.length = 0 then none
        else some (peplen, mutated_peptides)) := by
  induction xs with
  | nil => intro acc; simp
  | cons x xs ih =>
    intro acc
    simp only [List.foldl_cons, List.filterMap_cons]
    by_cases hc : ((gen x).filter (fun p => p.created_by_variant)).length = 0
    · simp only [hc, if_pos]
      rw [ih]
    · simp only [hc, if_neg]
      rw [ih]
      simp [hc, List.append_assoc]

theorem concat_aux (ps : List (Nat × List SweepPeptide)) :
    ∀ acc, ps.foldl (fun acc p => acc ++ p.2) acc =
      acc ++ (ps.map Prod.snd).flatten := by
  induction ps with
  | nil => intro acc; simp
  | cons p ps ih =>
    intro acc
    simp only [List.foldl_cons, List.map_cons, List.flatten_cons]
    rw [ih]
    simp [List.append_assoc]

/-- C7: the sweep produces exactly one partition per peptide length in the
inclusive pipeline range [min_length, max_length] that yields at least one
variant-created peptide — a partition `(peplen, block)` is in the output
iff `min_length ≤ peplen ≤ max_length`, `block` is the variant-created
filter of the generated windows of that length, and `block` is non-empty
(lengths with zero variant-created peptides emit no block) — and the final
table is the concatenation (row union) of the per-length partitions. -/
theorem C7_sweep_partitions (gen : Nat → List SweepPeptide)
    (min_length max_length : Nat) (peplen : Nat) (block : List SweepPeptide) :
    ((peplen, block) ∈ main_sweep gen min_length max_length ↔
      (min_length ≤ peplen ∧ peplen ≤ max_length ∧
       block = (gen peplen).filter (fun p => p.created_by_variant) ∧
       block ≠ [])) ∧
    main_sweep_table gen min_length max_length =
      ((main_sweep gen min_length max_length).map Prod.snd).flatten := by
  constructor
  · unfold main_sweep generate_peptides_partitions
    rw [partitions_aux]
    simp only [List.nil_append, List.mem_filterMap]
    constructor
    · rintro ⟨l, hl, hsome⟩
      rw [List.mem_range'] at hl
      obtain ⟨i, hi, hli⟩ := hl
      by_cases hc : ((gen l).filter (fun p => p.created_by_variant)).length = 0
      · rw [if_pos hc] at hsome
        exact Option.noConfusion hsome
      · rw [if_neg hc] at hsome
        injection hsome with h1
        injection h1 with hpl hblk
        subst hpl
        refine ⟨by omega, by omega, hblk.symm, ?_⟩
        intro hb
        apply hc
        rw [hblk, hb]
        rfl
    · rintro ⟨h1, h2, hblk, hne⟩
      refine ⟨peplen, ?_, ?_⟩
      · rw [List.mem_range']
        exact ⟨peplen - min_length, by omega, by omega⟩
      · have hc : ¬ ((gen peplen).filter
            (fun p => p.created_by_variant)).length = 0 := by
          intro hzero
          apply hne
          rw [hblk]
          exact List.length_eq_zero.mp hzero
        rw [if_neg hc, hblk]
  · unfold main_sweep_table
    rw [concat_aux]
    simp

/-- Pairwise proximity validation in `generate_fasta_output` (epaa.py lines
647-660): `valid` stays true iff no pair of distinct collected protein
positions is more than `flanking_region_size` apart. -/
def cluster_valid (variant_positions_protein : List Nat)
    (flanking_region_size : Nat) : Bool :=
  variant_positions_protein.all (fun i =>
    variant_positions_protein.all (fun j =>
      decide (i = j) ||
        decide (((i : Int) - (j : Int)).natAbs ≤ flanking_region_size)))

/-- The cluster-window construction of `generate_fasta_output` (epaa.py
lines 661-674) for one mutated protein, given its sequence and the
collected variant protein positions: when validation passes, the sequence
is sliced to `[max(0, min(positions) - flank), min(len(seq),
max(positions) + flank))` (Python slice, end exclusive; the `max(0, ·)` is
Nat truncated subtraction); an invalid cluster emits nothing.  `min()` on
an empty position list would raise, which is unreachable for a protein
carrying variants (`coding` is non-empty). -/
def cluster_window (p_seq : String) (variant_positions_protein : List Nat)
    (flanking_region_size : Nat) : Option String :=
  match variant_positions_protein with
  | [] => none
  | p0 :: rest =>
    if cluster_valid (p0 :: rest) flanking_region_size then
      some ((p_seq.drop (rest.foldl min p0 - flanking_region_size)).take
        (min p_seq.length (rest.foldl max p0 + flanking_region_size) -
          (rest.foldl min p0 - flanking_region_size)))
    else none

theorem cluster_window_cons (p_seq : String) (p0 : Nat) (rest : List Nat)
    (flank : Nat) :
    cluster_window p_seq (p0 :: rest) flank =
      if cluster_valid (p0 :: rest) flank then
        some ((p_seq.drop (rest.foldl min p0 - flank)).take
          (min p_seq.length (rest.foldl max p0 + flank) -
            (rest.foldl min p0 - flank)))
      else none := rfl

theorem cluster_valid_iff (positions : List Nat) (flank : Nat) :
    cluster_valid positions flank = true ↔
      ∀ i ∈ positions, ∀ j ∈ positions, i ≠ j →
        ((i : Int) - (j : Int)).natAbs ≤ flank := by
  unfold cluster_valid
  rw [List.all_eq_true]
  constructor
  · intro h i hi j hj hne
    have hi' := h i hi
    rw [List.all_eq_true] at hi'
    have hj' := hi' j hj
    rw [Bool.or_eq_true] at hj'
    rcases hj' with hd | hd
    · exact absurd (of_decide_eq_true hd) hne
    · exact of_decide_eq_true hd
  · intro h i hi
    rw [List.all_eq_true]
    intro j hj
    rw [Bool.or_eq_true]
    by_cases hij : i = j
    · exact Or.inl (decide_eq_true hij)
    · exact Or.inr (decide_eq_true (h i hi j hj hij))

/-- C8: for a mutated protein with a non-empty collected position list, a
cluster window is emitted iff every pair of distinct collected protein
positions is at most `flank` apart, and the emitted sequence is the
protein sequence sliced from `min(positions) - flank` (truncated at 0) to
`max(positions) + flank` (clamped to the sequence length). -/
theorem C8_cluster_window (p_seq : String) (positions : List Nat)
    (flank : Nat) (hne : positions ≠ []) :
    ((cluster_window p_seq positions flank).isSome = true ↔
      ∀ i ∈ positions, ∀ j ∈ positions, i ≠ j →
        ((i : Int) - (j : Int)).natAbs ≤ flank) ∧
    (∀ w, cluster_window p_seq positions flank = some w →
      ∃ m M, positions.min? = some m ∧ positions.max? = some M ∧
        w = (p_seq.drop (m - flank)).take
              (min p_seq.length (M + flank) - (m - flank))) := by
  rcases positions with _ | ⟨p0, rest⟩
  · exact absurd rfl hne
  constructor
  · rw [cluster_window_cons]
    by_cases hv : cluster_valid (p0 :: rest) flank = true
    · rw [if_pos hv]
      simp only [Option.isSome_some]
      exact iff_of_true trivial ((cluster_valid_iff _ _).mp hv)
    · rw [if_neg hv]
      simp only [Option.isSome_none]
      exact iff_of_false (by simp)
        (fun hp => hv ((cluster_valid_iff _ _).mpr hp))
  · intro w hw
    rw [cluster_window_cons] at hw
    by_cases hv : cluster_valid (p0 :: rest) flank = true
    · rw [if_pos hv] at hw
      injection hw with hw
      exact ⟨rest.foldl min p0, rest.foldl max p0,
        List.min?_cons', List.max?_cons', hw.symm⟩
    · rw [if_neg hv] at hw
      exact Option.noConfusion hw

set_option maxRecDepth 8192 in
/-- Witness for `C8_cluster_window`, including the two concrete examples:
positions [50, 64, 80] with flank 25 are rejected (|50 - 80| = 30 > 25) and
positions [101, 112] with flank 25 on a 150-residue protein give the
window [76, 137). -/
theorem C8_witness :
    cluster_window "" [50, 64, 80] 25 = none ∧
    cluster_window (String.mk (List.replicate 150 'A')) [101, 112] 25 =
      some (String.mk (List.replicate 61 'A')) ∧
    (([101, 112] : List Nat) ≠ []) ∧
    (∀ w, cluster_window (String.mk (List.replicate 150 'A'))
        [101, 112] 25 = some w →
      ∃ m M, ([101, 112] : List Nat).min? = some m ∧
        ([101, 112] : List Nat).max? = some M ∧
        w = ((String.mk (List.replicate 150 'A')).drop (m - 25)).take
              (min (String.mk (List.replicate 150 'A')).length (M + 25) -
                (m - 25))) :=
  ⟨by decide, by decide, by decide,
   (C8_cluster_window (String.mk (List.replicate 150 'A')) [101, 112] 25
      (by decide)).2⟩

/-- The fields of a variant consulted by `generate_wt_seqs` (epaa.py lines
462-500) for one (peptide, transcript) pair: the epytope integer variant
type (`v.type`) and the protein-level mutation notation
(`v.coding[tid].aaMutationSyntax`). -/
structure WtVariant where
  vtype : Nat
  aaMutationSyntax : String
deriving DecidableEq, Repr

/-- Result of one (peptide, transcript) pair in `generate_wt_seqs`:
`crash` — an unhandled exception escapes the function (caught only by the
caller's blanket `except`, which drops the whole wildtype column);
`noEntry` — no key is written into `wt_dict`; `unavailable` — the key is
written with `np.nan`; `seq s` — the key is written with the reconstructed
residue string. -/
inductive WtPairResult where
  | crash
  | noEntry
  | unavailable
  | seq (s : String)
deriving DecidableEq, Repr

/-- Prefix match of the regex `([a-zA-Z]+)([0-9]+)([a-zA-Z]+)` (the `r`
pattern of `generate_wt_seqs`); the character classes are disjoint, so
greedy matching is maximal munch with no backtracking. -/
def matchSubstPattern (s : List Char) :
    Option (List Char × List Char × List Char) :=
  let g1 := s.takeWhile Char.isAlpha
  let r1 := s.dropWhile Char.isAlpha
  let g2 := r1.takeWhile Char.isDigit
  let r2 := r1.dropWhile Char.isDigit
  let g3 := r2.takeWhile Char.isAlpha
  if g1.isEmpty || g2.isEmpty || g3.isEmpty then none else some (g1, g2, g3)

/-- Prefix match of the regex `([a-zA-Z]+)([0-9]+)` (the `d_pattern` of
`generate_wt_seqs`). -/
def matchDelPattern (s : List Char) : Option (List Char × List Char) :=
  let g1 := s.takeWhile Char.isAlpha
  let r1 := s.dropWhile Char.isAlpha
  let g2 := r1.takeWhile Char.isDigit
  if g1.isEmpty || g2.isEmpty then none else some (g1, g2)

/-- One variant-processing step of `generate_wt_seqs`, acting on the state
`(mut_seq, not_available)`.  `seq1` abstracts `Bio.SeqUtils.seq1`
(3-letter → 1-letter amino-acid conversion, an external library).  `none`
models an unhandled exception: `mut_syntax.split(".")[1]` raising
`IndexError`, `d_pattern.match(...).groups()` raising `AttributeError` when
the deletion syntax does not match, or `mut_seq[key] = wt` raising
`IndexError` out of range (Python `list.insert` clamps instead, hence the
`min` in the deletion branch). -/
def wtStep (seq1 : List Char → List Char) (key : Nat) (v : WtVariant)
    (st : List (List Char) × Bool) : Option (List (List Char) × Bool) :=
  if (v.vtype == 3 || v.vtype == 4 || v.vtype == 5) ||
      v.aaMutationSyntax.toList.contains '?' then
    some (st.1, true)
  else if v.vtype == 1 then
    match (pySplit ".".toList v.aaMutationSyntax.toList).get? 1 with
    | none => none
    | some part =>
      match matchDelPattern part with
      | none => none
      | some (letters, _) =>
          some (st.1.insertIdx (min key st.1.length) (seq1 letters), st.2)
  else if v.vtype == 2 then
    some (st.1, true)
  else
    match (pySplit ".".toList v.aaMutationSyntax.toList).get? 1 with
    | none => none
    | some part =>
      match matchSubstPattern part with
      | none => some (st.1, true)
      | some (letters, _, _) =>
          if key < st.1.length then some (st.1.set key (seq1 letters), st.2)
          else none

/-- Whether a successfully processed variant switches `not_available` on:
frameshift or unknown type (3, 4, 5), a "?" in the protein syntax, an
insertion (type 2), or an unparseable substitution syntax.  (A deletion
with unparseable syntax crashes instead — see `wtStep`.) -/
def unavailTriggerB (v : WtVariant) : Bool :=
  if (v.vtype == 3 || v.vtype == 4 || v.vtype == 5) ||
      v.aaMutationSyntax.toList.contains '?' then true
  else if v.vtype == 1 then false
  else if v.vtype == 2 then true
  else
    match (pySplit ".".toList v.aaMutationSyntax.toList).get? 1 with
    | none => false
    | some part => (matchSubstPattern part).isNone

/-- Innermost loop of `generate_wt_seqs`: `for v in var_list` — thread the
`(mut_seq, not_available)` state through `wtStep` for each variant,
propagating an exception (`none`). -/
def wtFoldVars (seq1 : List Char → List Char) (key : Nat)
    (st : Option (List (List Char) × Bool)) (vars : List WtVariant) :
    Option (List (List Char) × Bool) :=
  vars.foldl
    (fun acc v =>
      match acc with
      | none => none
      | some s => wtStep seq1 key v s)
    st

/-- Middle loop of `generate_wt_seqs`: `for key in variant_dic`. -/
def wtFoldDic (seq1 : List Char → List Char)
    (st : Option (List (List Char) × Bool))
    (variant_dic : List (Nat × List WtVariant)) :
    Option (List (List Char) × Bool) :=
  variant_dic.foldl
    (fun acc kv =>
      match acc with
      | none => none
      | some s => wtFoldVars seq1 kv.1 (some s) kv.2)
    st

/-- Outer loop of `generate_wt_seqs`: `for p in protein_pos`. -/
def wtFoldPositions (seq1 : List Char → List Char)
    (st : Option (List (List Char) × Bool))
    (positions : List (List (Nat × List WtVariant))) :
    Option (List (List Char) × Bool) :=
  positions.foldl
    (fun acc variant_dic =>
      match acc with
      | none => none
      | some s => wtFoldDic seq1 (some s) variant_dic)
    st

/-- Embedding of the body of `generate_wt_seqs` for one (peptide,
transcript) pair.  `positions` holds, for each protein position `p` of the
peptide in iteration order, the dictionary
`x.get_variants_by_protein_position(t.transcript_id, p)` as a `(key,
variant list)` association list.  `variant_available = bool(variant_dic)`
is overwritten every iteration, so only the last position's dictionary
decides it.  `mut_seq` starts as the peptide's characters; `"".join`
flattens it at the end. -/
def generate_wt_pair (seq1 : List Char → List Char) (pep : String)
    (positions : List (List (Nat × List WtVariant))) : WtPairResult :=
  match wtFoldPositions seq1
      (some (pep.toList.map (fun c => [c]), false)) positions with
  | none => WtPairResult.crash
  | some (mut_seq, not_available) =>
    if not_available then WtPairResult.unavailable
    else if (match positions.getLast? with
             | some variant_dic => !variant_dic.isEmpty
             | none => false) then
      WtPairResult.seq (String.mk mut_seq.flatten)
    else WtPairResult.noEntry

/-- The string Python's `str()` produces for a `wt_dict` cell
(`str(np.nan)` is "nan"). -/
def pyStrOfEntry : Option String → String
  | none => "nan"
  | some s => s

/-- Embedding of `create_wt_seq_column_value(pep, wtseqs)` (epaa.py lines
447-459): each transcript of the peptide contributes
`str(wtseqs[key])` when the transcript carries variants (`bool(
transcript.vars)`) and its key is present in `wt_dict`; the distinct
values are comma-joined (the `set` enumeration order is unspecified;
deduplication in encounter order is one such enumeration), and an empty
collection yields `np.nan` (`none`), never the empty string.  Each entry
of `transcripts` is `(bool(transcript.vars), wt_dict lookup)` with
`none` = key absent and `some none` = the `np.nan` cell. -/
def create_wt_seq_column_value
    (transcripts : List (Bool × Option (Option String))) : Option String :=
  let wild_type := (transcripts.filterMap (fun t =>
      if t.1 then
        match t.2 with
        | some entry => some (pyStrOfEntry entry)
        | none => none
      else none)).dedup
  if wild_type.isEmpty then none
  else some (String.intercalate "," wild_type)

theorem wtStep_some_snd (seq1 : List Char → List Char) (key : Nat)
    (v : WtVariant) (st st' : List (List Char) × Bool)
    (h : wtStep seq1 key v st = some st') :
    st'.2 = (st.2 || unavailTriggerB v) := by
  unfold wtStep at h
  unfold unavailTriggerB
  by_cases h1 : ((v.vtype == 3 || v.vtype == 4 || v.vtype == 5) ||
      v.aaMutationSyntax.toList.contains '?') = true
  · rw [if_pos h1] at h
    rw [if_pos h1]
    injection h with h
    rw [← h]
    simp
  · rw [if_neg h1] at h
    rw [if_neg h1]
    by_cases h2 : (v.vtype == 1) = true
    · rw [if_pos h2] at h
      rw [if_pos h2]
      rcases hs : (pySplit ".".toList v.aaMutationSyntax.toList).get? 1
        with _ | part
      · rw [hs] at h
        cases h
      · rw [hs] at h
        simp only [] at h
        rcases hm : matchDelPattern part with _ | ⟨letters, digits⟩
        · rw [hm] at h
          cases h
        · rw [hm] at h
          injection h with h
          rw [← h]
          simp
    · rw [if_neg h2] at h
      rw [if_neg h2]
      by_cases h3 : (v.vtype == 2) = true
      · rw [if_pos h3] at h
        rw [if_pos h3]
        injection h with h
        rw [← h]
        simp
      · rw [if_neg h3] at h
        rw [if_neg h3]
        rcases hs : (pySplit ".".toList v.aaMutationSyntax.toList).get? 1
          with _ | part
        · rw [hs] at h
          cases h
        · rw [hs] at h
          simp only [] at h ⊢
          rcases hm : matchSubstPattern part with _ | ⟨letters, gr⟩
          · rw [hm] at h
            injection h with h
            rw [← h]
            simp
          · rw [hm] at h
            simp only [] at h
            by_cases h4 : key < st.1.length
            · rw [if_pos h4] at h
              injection h with h
              rw [← h]
              simp
            · rw [if_neg h4] at h
              cases h

theorem wtFoldVars_none (seq1 : List Char → List Char) (key : Nat)
    (vars : List WtVariant) : wtFoldVars seq1 key none vars = none := by
  induction vars with
  | nil => rfl
  | cons v vs ih => exact ih

theorem wtFoldDic_none (seq1 : List Char → List Char)
    (dic : List (Nat × List WtVariant)) : wtFoldDic seq1 none dic = none := by
  induction dic with
  | nil => rfl
  | cons kv dic ih => exact ih

theorem wtFoldVars_snd (seq1 : List Char → List Char) (key : Nat)
    (vars : List WtVariant) :
    ∀ st st', wtFoldVars seq1 key (some st) vars = some st' →
      st'.2 = (st.2 || vars.any unavailTriggerB) := by
  induction vars with
  | nil =>
    intro st st' h
    injection h with h
    rw [← h]
    simp
  | cons v vs ih =>
    intro st st' h
    have hcons : wtFoldVars seq1 key (some st) (v :: vs) =
        wtFoldVars seq1 key (wtStep seq1 key v st) vs := rfl
    rw [hcons] at h
    rcases hw : wtStep seq1 key v st with _ | st1
    · rw [hw, wtFoldVars_none] at h
      cases h
    · rw [hw] at h
      rw [ih st1 st' h, wtStep_some_snd seq1 key v st st1 hw]
      simp [Bool.or_assoc]

theorem wtFoldDic_snd (seq1 : List Char → List Char)
    (dic : List (Nat × List WtVariant)) :
    ∀ st st', wtFoldDic seq1 (some st) dic = some st' →
      st'.2 = (st.2 || dic.any (fun kv => kv.2.any unavailTriggerB)) := by
  induction dic with
  | nil =>
    intro st st' h
    injection h with h
    rw [← h]
    simp
  | cons kv dic ih =>
    intro st st' h
    have hcons : wtFoldDic seq1 (some st) (kv :: dic) =
        wtFoldDic seq1 (wtFoldVars seq1 kv.1 (some st) kv.2) dic := rfl
    rw [hcons] at h
    rcases hw : wtFoldVars seq1 kv.1 (some st) kv.2 with _ | st1
    · rw [hw, wtFoldDic_none] at h
      cases h
    · rw [hw] at h
      rw [ih st1 st' h, wtFoldVars_snd seq1 kv.1 kv.2 st st1 hw]
      simp [Bool.or_assoc]

theorem wtFoldPositions_none (seq1 : List Char → List Char)
    (positions : List (List (Nat × List WtVariant))) :
    wtFoldPositions seq1 none positions = none := by
  induction positions with
  | nil => rfl
  | cons dic ps ih => exact ih

theorem wtFoldPositions_snd (seq1 : List Char → List Char)
    (positions : List (List (Nat × List WtVariant))) :
    ∀ st st', wtFoldPositions seq1 (some st) positions = some st' →
      st'.2 = (st.2 || positions.any
        (fun dic => dic.any (fun kv => kv.2.any unavailTriggerB))) := by
  induction positions with
  | nil =>
    intro st st' h
    injection h with h
    rw [← h]
    simp
  | cons dic ps ih =>
    intro st st' h
    have hcons : wtFoldPositions seq1 (some st) (dic :: ps) =
        wtFoldPositions seq1 (wtFoldDic seq1 (some st) dic) ps := rfl
    rw [hcons] at h
    rcases hw : wtFoldDic seq1 (some st) dic with _ | st1
    · rw [hw, wtFoldPositions_none] at h
      cases h
    · rw [hw] at h
      rw [ih st1 st' h, wtFoldDic_snd seq1 dic st st1 hw]
      simp [Bool.or_assoc]

theorem create_wt_seq_column_null_iff
    (transcripts : List (Bool × Option (Option String))) :
    create_wt_seq_column_value transcripts = none ↔
      ¬∃ t ∈ transcripts, t.1 = true ∧ t.2.isSome = true := by
  have hchar : ((transcripts.filterMap (fun t =>
      if t.1 then
        match t.2 with
        | some entry => some (pyStrOfEntry entry)
        | none => none
      else none)).dedup = []) ↔
      ¬∃ t ∈ transcripts, t.1 = true ∧ t.2.isSome = true := by
    rw [List.dedup_eq_nil, List.filterMap_eq_nil_iff]
    constructor
    · rintro hall ⟨t, ht, h1, h2⟩
      have hft := hall t ht
      rw [if_pos h1] at hft
      obtain ⟨e, he⟩ := Option.isSome_iff_exists.mp h2
      rw [he] at hft
      exact Option.noConfusion hft
    · intro hnex t ht
      by_cases h1 : t.1 = true
      · rcases h2 : t.2 with _ | e
        · rw [if_pos h1]
        · exact absurd ⟨t, ht, h1, by rw [h2]; rfl⟩ hnex
      · rw [if_neg h1]
  unfold create_wt_seq_column_value
  simp only []
  by_cases he : (transcripts.filterMap (fun t =>
      if t.1 then
        match t.2 with
        | some entry => some (pyStrOfEntry entry)
        | none => none
      else none)).dedup = []
  · rw [if_pos (by simp [he])]
    exact iff_of_true rfl (hchar.mp he)
  · rw [if_neg (by simp [he])]
    exact iff_of_false (by simp) (fun hn => he (hchar.mpr hn))

/-- C9 (amended): for a (peptide, transcript) pair whose processing raises
no exception, the pair is recorded as the null `np.nan` cell iff some
contributing variant is a frameshift or unknown type, carries "?" in its
protein syntax, is an insertion, or is a substitution with unparseable
protein syntax; a reconstructed residue string is produced only when no
such variant exists.  (A deletion variant with unparseable protein syntax
raises an exception that escapes per-pair handling instead of being
recorded as null — see the counterexample.)  The per-peptide wildtype
column aggregates only transcripts that carry variants and have a wt_dict
entry, and is null — not the empty string — exactly when no such
transcript exists. -/
theorem C9_wt_reconstruction (seq1 : List Char → List Char) (pep : String)
    (positions : List (List (Nat × List WtVariant)))
    (hnc : generate_wt_pair seq1 pep positions ≠ WtPairResult.crash) :
    ((generate_wt_pair seq1 pep positions = WtPairResult.unavailable) ↔
      ∃ dic ∈ positions, ∃ kv ∈ dic, ∃ v ∈ kv.2, unavailTriggerB v = true) ∧
    (∀ s, generate_wt_pair seq1 pep positions = WtPairResult.seq s →
      ¬∃ dic ∈ positions, ∃ kv ∈ dic, ∃ v ∈ kv.2,
        unavailTriggerB v = true) ∧
    (∀ transcripts : List (Bool × Option (Option String)),
      create_wt_seq_column_value transcripts = none ↔
        ¬∃ t ∈ transcripts, t.1 = true ∧ t.2.isSome = true) := by
  rcases hst : wtFoldPositions seq1
      (some (pep.toList.map (fun c => [c]), false)) positions with _ | st
  · exfalso
    apply hnc
    unfold generate_wt_pair
    rw [hst]
  · rcases st with ⟨ms, na⟩
    have hres : generate_wt_pair seq1 pep positions =
        (if na then WtPairResult.unavailable
         else if (match positions.getLast? with
                  | some variant_dic => !variant_dic.isEmpty
                  | none => false) then
           WtPairResult.seq (String.mk ms.flatten)
         else WtPairResult.noEntry) := by
      unfold generate_wt_pair
      rw [hst]
    have hna : na = positions.any
        (fun dic => dic.any (fun kv => kv.2.any unavailTriggerB)) := by
      have hsnd := wtFoldPositions_snd seq1 positions _ _ hst
      simpa using hsnd
    have hiff : (∃ dic ∈ positions, ∃ kv ∈ dic, ∃ v ∈ kv.2,
        unavailTriggerB v = true) ↔
        (positions.any
          (fun dic => dic.any (fun kv => kv.2.any unavailTriggerB)) = true) := by
      simp [List.any_eq_true]
    refine ⟨?_, ?_, fun ts => create_wt_seq_column_null_iff ts⟩
    · rw [hres, hiff, ← hna]
      cases na
      · rcases hb : (match positions.getLast? with
            | some variant_dic => !variant_dic.isEmpty
            | none => false) with _ | _
        · simp [hb]
        · simp [hb]
      · simp
    · intro s hseq hex
      have hnat : na = true := by
        rw [hna]
        exact hiff.mp hex
      rw [hres, hnat] at hseq
      simp at hseq

/-- C9 counterexample: a deletion variant (type 1) whose protein syntax
"p.41del" does not match the `d_pattern` regex makes
`d_pattern.match(...)` return `None` and `m.groups()` raise
`AttributeError` — the pair crashes instead of being recorded as the null
`np.nan` cell, contradicting the claim that unparseable protein mutation
syntax makes the pair's reconstruction unavailable-as-null. -/
theorem C9_counterexample :
    generate_wt_pair (fun l => l.take 1) "PEPT"
        [[(0, [⟨1, "p.41del"⟩])]] = WtPairResult.crash ∧
    WtPairResult.crash ≠ WtPairResult.unavailable := by
  exact ⟨by decide, by decide⟩

/-- Witness for `C9_wt_reconstruction` at a concrete substitution pair. -/
theorem C9_witness :
    generate_wt_pair (fun l => l.take 1) "KXMN"
        [[(1, [⟨0, "p.Lys2Asn"⟩])]] ≠ WtPairResult.crash ∧
    generate_wt_pair (fun l => l.take 1) "KXMN"
        [[(1, [⟨0, "p.Lys2Asn"⟩])]] = WtPairResult.seq "KLMN" ∧
    ¬∃ dic ∈ [[((1 : Nat), [(⟨0, "p.Lys2Asn"⟩ : WtVariant)])]], ∃ kv ∈ dic,
        ∃ v ∈ kv.2, unavailTriggerB v = true :=
  ⟨by decide, by decide,
   (C9_wt_reconstruction (fun l => l.take 1) "KXMN"
      [[(1, [⟨0, "p.Lys2Asn"⟩])]] (by decide)).2.1 "KLMN" (by decide)⟩

end Epaa
